import Mathlib

/-!
Verification of the asynchronous HTTP client request engine
(src/core/src/clients/http/request.cpp).

The definitions below are a shallow embedding of the request lifecycle
state machine of Request::RequestImpl: the retry decision in on_retry,
the backoff computation, the timer callback on_retry_timer, the final
resolution in on_completed, the aggregate timeout computation
(max_retry_time / complete_timeout), the PUT body feeder
(SetPutMethodData / PutMethodReadCallback), and the header line parser
(rfind_not_space / parse_header / on_header).

Effects on external collaborators (the statistics sink, the promise, the
tracing span, the timer, the transfer engine submission) are modelled as
an explicit trace of actions emitted by each state-machine step, so that
properties such as "the promise is resolved exactly once" become
statements about the action traces of complete executions.
-/

namespace UserverHttp

/-- Base time in milliseconds for the exponential backoff algorithm
(kEBBaseTime in request.cpp). -/
def kEBBaseTime : Nat := 25

/-- Cap of the backoff exponent (kMaxRetryInTimeout in request.cpp). -/
def kMaxRetryInTimeout : Nat := 5

/-- Least HTTP code treated as bad for the backoff algorithm
(kLeastBadHttpCodeForEB in request.cpp). -/
def kLeastBadHttpCodeForEB : Nat := 500

/-- Observable effects performed by the state machine on its external
collaborators: the statistics sink, the promise, the span, the retry
timer and the transfer engine. -/
inductive Action where
  | statsStart
  | storeTimeToStart
  | finishOk (code : Nat)
  | finishEc
  | setValue (status : Nat)
  | setException
  | spanReset
  | scheduleTimer (delayMs : Nat)
  | performRequest
deriving DecidableEq

/-- The retry bookkeeping struct of RequestImpl (request.cpp lines
116-125): maximum number of tries, current try (starts at 1) and the
flag controlling retries on transport errors. -/
structure RetrySt where
  retries : Nat
  current : Nat
  onFails : Bool
deriving DecidableEq

/-- Backoff delay computed in on_retry (request.cpp lines 452-456):
kEBBaseTime * (rand() % (1 << min(current - 1, kMaxRetryInTimeout)) + 1),
with the PRNG draw rand() passed in explicitly as r. -/
def backoff_ms (current r : Nat) : Nat :=
  kEBBaseTime * (r % 2 ^ min (current - 1) kMaxRetryInTimeout + 1)

/-- The no-retry predicate of on_retry (request.cpp lines 444-447):
the transfer finished with no error and a good status, or all tries are
used, or the transfer failed and retries on failure are disabled. -/
def not_need_retry (err : Bool) (status : Nat) (st : RetrySt) : Bool :=
  (!err && decide (status < kLeastBadHttpCodeForEB)) ||
    decide (st.retries ≤ st.current) ||
    (err && !st.onFails)

/-- Outcome of one on_retry invocation: either finish via on_completed,
or schedule a single-shot timer with the computed backoff delay after
incrementing the current try. -/
inductive RetryDecision where
  | finish
  | scheduleRetry (delayMs : Nat) (newCurrent : Nat)
deriving DecidableEq

/-- The branch taken by on_retry (request.cpp lines 444-467) as a pure
decision over the retry state, the completion error, the response status
and the PRNG draw. -/
def on_retry_decision (st : RetrySt) (err : Bool) (status : Nat) (r : Nat) :
    RetryDecision :=
  if not_need_retry err status st then RetryDecision.finish
  else RetryDecision.scheduleRetry (backoff_ms st.current r) (st.current + 1)

/-- Trace of on_completed (request.cpp lines 376-403): store time to
start, then on error record FinishEc and set the exception on the
promise, otherwise record FinishOk and set the response value; finally
release the span.  Span tag actions are elided (they target the external
span only). -/
def on_completed_acts (err : Bool) (status : Nat) : List Action :=
  Action.storeTimeToStart ::
    (if err then [Action.finishEc, Action.setException]
     else [Action.finishOk status, Action.setValue status]) ++
      [Action.spanReset]

/-- Trace of on_retry_timer (request.cpp lines 470-477): on timer
success submit the next attempt via perform_request, otherwise finish
via on_completed with the timer error. -/
def on_retry_timer_acts (err : Bool) : List Action :=
  if err then on_completed_acts true 0 else [Action.performRequest]

/-- Events delivered by the reactor to the state machine: a transfer
completion carrying the error flag, the response status code and the
PRNG value a subsequent rand() call would return, or a timer callback
carrying the timer error flag. -/
inductive Ev where
  | attempt (err : Bool) (status : Nat) (r : Nat)
  | timer (err : Bool)
deriving DecidableEq

/-- Per-attempt statistics recorded at the top of on_retry
(request.cpp lines 434-438). -/
def on_retry_stats (err : Bool) (status : Nat) : List Action :=
  [Action.storeTimeToStart,
   if err then Action.finishEc else Action.finishOk status]

/-- The retry loop driven by reactor events, with on_retry as the
completion handler (request.cpp lines 429-477).  Each attempt completion
either finishes via on_completed, or schedules the backoff timer; a
successful timer callback submits the next attempt and loops, a failed
one finishes with the timer error.  Returns none when the event stream
ends before the request reaches its terminal state. -/
def runRetryLoop : RetrySt → List Ev → Option (List Action)
  | st, Ev.attempt err status r :: rest =>
    match on_retry_decision st err status r with
    | RetryDecision.finish =>
      some (on_retry_stats err status ++ on_completed_acts err status)
    | RetryDecision.scheduleRetry d c =>
      match rest with
      | Ev.timer terr :: rest2 =>
        if terr then
          some (on_retry_stats err status ++
            Action.scheduleTimer d :: on_retry_timer_acts true)
        else
          (runRetryLoop ⟨st.retries, c, st.onFails⟩ rest2).map
            (fun a => on_retry_stats err status ++
              Action.scheduleTimer d :: (on_retry_timer_acts false ++ a))
      | _ => none
  | _, _ => none

/-- The full run of async_perform (request.cpp lines 503-532): stats
Start, submission of the first attempt via perform_request, and then the
completion handler: on_completed directly when at most one try is
configured, the retry loop otherwise. -/
def async_perform_run (retries : Nat) (onFails : Bool) (evs : List Ev) :
    Option (List Action) :=
  if retries ≤ 1 then
    match evs with
    | Ev.attempt err status _ :: _ =>
      some (Action.statsStart :: Action.performRequest ::
        on_completed_acts err status)
    | _ => none
  else
    (runRetryLoop ⟨retries, 1, onFails⟩ evs).map
      (fun a => Action.statsStart :: Action.performRequest :: a)

/-- An action resolves the promise when it is set_value or
set_exception. -/
def isResolution : Action → Bool
  | Action.setValue _ => true
  | Action.setException => true
  | _ => false

/-- Retry states reachable for a request configured with the given try
count and transport-failure flag: the initial state set by
RequestImpl::retry (request.cpp lines 354-358) and every state produced
by an on_retry invocation that decided to retry. -/
inductive ReachableSt (n : Nat) (f : Bool) : RetrySt → Prop where
  | init : ReachableSt n f ⟨n, 1, f⟩
  | step {st : RetrySt} {err : Bool} {status r d c : Nat} :
      ReachableSt n f st →
      on_retry_decision st err status r = RetryDecision.scheduleRetry d c →
      ReachableSt n f ⟨st.retries, c, st.onFails⟩

/-- Sum of worst-case backoff delays accumulated by the loop in
max_retry_time (request.cpp lines 136-142): for each i in [1, number)
add kEBBaseTime * (2 ^ min(i - 1, kMaxRetryInTimeout) + 1). -/
def max_retry_time : Nat → Nat
  | 0 => 0
  | n + 1 =>
    max_retry_time n +
      (if 1 ≤ n then kEBBaseTime * (2 ^ min (n - 1) kMaxRetryInTimeout + 1)
       else 0)

/-- Aggregate timeout of complete_timeout (request.cpp lines 144-147):
static_cast truncation of request_timeout * 1.1 * retries plus
max_retry_time(retries).  The double product is modelled by the exact
rational value 11 * t * n / 10 truncated toward zero (Nat division).
The IEEE-double computation of the source agrees with this model for
every timeout up to 10 ^ 8 ms and every retry count up to 256
(verified exhaustively over that whole grid); far outside it the
rounded product can drift by 1 ms (first known case near
t = 30135476987037, n = 17), so theorems about this model are stated
only on the verified domain. -/
def complete_timeout (request_timeout retries : Nat) : Nat :=
  11 * request_timeout * retries / 10 + max_retry_time retries

/-- Timeout attached to the ResponseFuture built by
Request::async_perform (request.cpp lines 161-166). -/
def response_future_timeout_ms (timeout_ms retries : Nat) : Nat :=
  complete_timeout timeout_ms retries

/-- Modelled from the spec (section 4.2 deadline propagation): the
aggregate timeout formula with the ceiling the specification states,
ceil(t * 1.1 * n) plus the worst-case backoff sum; written to be
compared with complete_timeout. -/
def complete_timeout_ceil (request_timeout retries : Nat) : Nat :=
  (11 * request_timeout * retries + 9) / 10 + max_retry_time retries

/-- The PUT body feeder fields of RequestImpl (request.cpp lines
126-129): the payload, the read cursor (none models the null pointer,
some i the pointer at offset i into the payload) and the remaining byte
count. -/
structure PutState where
  put_method_data : List Nat
  put_method_cursor : Option Nat
  put_method_rest_data_size : Nat
deriving DecidableEq

/-- SetPutMethodData (request.cpp lines 362-366): install the payload
and clear the cursor and the remaining size. -/
def SetPutMethodData (data : List Nat) : PutState :=
  ⟨data, none, 0⟩

/-- PutMethodReadCallback (request.cpp lines 405-427): on the first
call initialise the cursor to the payload start and the remaining size
to the payload size, then copy min(remaining, nmemb * size) bytes into
the output buffer, advance the cursor, decrement the remaining size and
return the bytes copied (here: the copied bytes themselves, whose
length is the return value). -/
def PutMethodReadCallback (st : PutState) (size nmemb : Nat) :
    List Nat × PutState :=
  let st1 : PutState :=
    match st.put_method_cursor with
    | none =>
      ⟨st.put_method_data, some 0, st.put_method_data.length⟩
    | some _ => st
  let pos := st1.put_method_cursor.getD 0
  let curl_buffer_size := nmemb * size
  let bytes_to_copy := min st1.put_method_rest_data_size curl_buffer_size
  ((st1.put_method_data.drop pos).take bytes_to_copy,
   ⟨st1.put_method_data, some (pos + bytes_to_copy),
    st1.put_method_rest_data_size - bytes_to_copy⟩)

/-- Effect of perform_request (request.cpp lines 534-541) on the PUT
feeder state: a fresh Response is installed and the transfer submitted,
but the PUT cursor and remaining size are left untouched. -/
def perform_request_put_state (st : PutState) : PutState := st

/-- Drive PutMethodReadCallback through a list of read buffer
capacities (each call with size = capacity, nmemb = 1), collecting the
copied chunks. -/
def feedAll (st : PutState) : List Nat → List (List Nat) × PutState
  | [] => ([], st)
  | c :: cs =>
    let r := PutMethodReadCallback st c 1
    let rest := feedAll r.2 cs
    (r.1 :: rest.1, rest.2)

/-- The cursor offset the next callback will read from: 0 while the
cursor is still null (the first call initialises it to the start). -/
def effPos (st : PutState) : Nat :=
  match st.put_method_cursor with
  | none => 0
  | some i => i

/-- The byte count the next callback can still deliver: the full
payload size while the cursor is null, the stored remaining size
afterwards. -/
def effRest (st : PutState) : Nat :=
  match st.put_method_cursor with
  | none => st.put_method_data.length
  | some _ => st.put_method_rest_data_size

/-- Well-formedness of the feeder state: an initialised cursor together
with the remaining size spans exactly the payload. -/
def PutWF (st : PutState) : Prop :=
  ∀ i, st.put_method_cursor = some i →
    i + st.put_method_rest_data_size = st.put_method_data.length

/-- Characters stripped from the right of a header line by
rfind_not_space (request.cpp lines 479-486). -/
def is_header_space (c : Char) : Bool :=
  c = '\n' || c = '\r' || c = ' '

/-- rfind_not_space (request.cpp lines 479-486) as the length of the
kept prefix: scan from the right, skip newline, carriage return and
space, and return one past the first other character (0 when the whole
buffer is made of skipped characters). -/
def rfind_not_space : List Char → Nat
  | [] => 0
  | c :: rest =>
    let r := rfind_not_space rest
    if r = 0 then (if is_header_space c then 0 else 1) else r + 1

/-- The strchr call plus the two string constructions of parse_header
(request.cpp lines 495-499): split at the first colon, returning the
prefix before it and the suffix after it; none when no colon occurs. -/
def strchr_split : List Char → Option (List Char × List Char)
  | [] => none
  | c :: rest =>
    if c = ':' then some ([], rest)
    else (strchr_split rest).map (fun p => (c :: p.1, p.2))

/-- parse_header (request.cpp lines 488-501): trim trailing whitespace
and CR/LF from the right, ignore the line when nothing remains, then
split at the first colon into key and value; none means no header map
entry is stored, some (k, v) means the assignment headers()[k] = v. -/
def parse_header (l : List Char) : Option (List Char × List Char) :=
  let e := rfind_not_space l
  if e = 0 then none
  else strchr_split (l.take e)

/-- on_header (request.cpp lines 368-374): compute size * nmemb, parse
the header line when userdata is non-null, and return size * nmemb.
The first component is the returned byte count, the second records the
parse outcome (none when userdata was null). -/
def on_header (buf : List Char) (size nmemb : Nat) (selfPresent : Bool) :
    Nat × Option (Option (List Char × List Char)) :=
  let data_size := size * nmemb
  (data_size,
   if selfPresent then some (parse_header (buf.take data_size)) else none)

/-- The worst-case backoff sum equals the sum the specification writes,
reindexed from attempt indices 1..n-1 to 0..n-2. -/
theorem max_retry_time_eq_sum (n : Nat) :
    max_retry_time n =
      Finset.sum (Finset.range (n - 1))
        (fun i => kEBBaseTime * (2 ^ min i kMaxRetryInTimeout + 1)) := by
  induction n with
  | zero => simp [max_retry_time]
  | succ m ih =>
    cases m with
    | zero => simp [max_retry_time]
    | succ k =>
      rw [max_retry_time, ih]
      simp [Finset.sum_range_succ]

/-- Claim C10: on_header always returns size * nmemb, the full length
of the supplied buffer, for every buffer, size, nmemb and userdata
(including null userdata), regardless of whether the line parses. -/
theorem c10_on_header_full_length (buf : List Char) (size nmemb : Nat)
    (selfPresent : Bool) :
    (on_header buf size nmemb selfPresent).1 = size * nmemb := rfl

/-- Claim C9: when the backoff timer delivers a non-success error code,
on_retry_timer finishes the request via on_completed with that error
(the promise is resolved with an exception) and submits no further
attempt; a new attempt is submitted via perform_request exactly when the
timer callback delivers success. -/
theorem c9_on_retry_timer_branches :
    on_retry_timer_acts true = on_completed_acts true 0 ∧
    Action.setException ∈ on_retry_timer_acts true ∧
    Action.performRequest ∉ on_retry_timer_acts true ∧
    on_retry_timer_acts false = [Action.performRequest] := by decide

/-- Claim C4 counterexample: the claim asserts the backoff draw is
uniform over the inclusive range up to 2 ^ min(i - 1, 5), so at attempt
index 1 the delay 25 * (1 + 1) = 50 ms would be attainable; the code
computes rand() % (1 << 0) = 0, so no PRNG value yields 50. -/
theorem c4_counterexample_backoff :
    ¬ ∃ r : Nat, backoff_ms 1 r = 50 := by
  rintro ⟨r, h⟩
  simp [backoff_ms, kEBBaseTime, kMaxRetryInTimeout, Nat.mod_one] at h

/-- Claim C4 amended: the backoff delay before the next attempt is
25 ms times (u + 1) where u = rand() % 2 ^ min(i - 1, 5), so u ranges
over the inclusive interval [0, 2 ^ min(i - 1, 5) - 1]: every value of
that interval is attainable and the delay lies between 25 ms and
25 * 2 ^ min(i - 1, 5) ms. -/
theorem c4_amended_backoff (i : Nat) (_hi : 1 ≤ i) :
    (∀ r, backoff_ms i r =
      kEBBaseTime * (r % 2 ^ min (i - 1) kMaxRetryInTimeout + 1)) ∧
    (∀ u, u < 2 ^ min (i - 1) kMaxRetryInTimeout →
      ∃ r, backoff_ms i r = kEBBaseTime * (u + 1)) ∧
    (∀ r, kEBBaseTime ≤ backoff_ms i r ∧
      backoff_ms i r ≤ kEBBaseTime * 2 ^ min (i - 1) kMaxRetryInTimeout) := by
  refine ⟨fun r => rfl, fun u hu => ⟨u, ?_⟩, fun r => ⟨?_, ?_⟩⟩
  · rw [backoff_ms, Nat.mod_eq_of_lt hu]
  · exact Nat.le_mul_of_pos_right kEBBaseTime (Nat.succ_pos _)
  · refine Nat.mul_le_mul_left kEBBaseTime ?_
    exact Nat.mod_lt r (Nat.pos_pow_of_pos _ (by norm_num))

/-- Claim C4 amended, instantiated at attempt index 1 and PRNG draw 3. -/
theorem c4_amended_backoff_witness :
    backoff_ms 1 3 =
      kEBBaseTime * (3 % 2 ^ min (1 - 1) kMaxRetryInTimeout + 1) :=
  (c4_amended_backoff 1 (by decide)).1 3

/-- Claim C5 counterexample: at per-attempt timeout 1 ms and one
configured attempt the code truncates 1 * 1.1 * 1 to 1 ms, while the
claimed ceiling formula gives 2 ms. -/
theorem c5_counterexample_complete_timeout :
    response_future_timeout_ms 1 1 = 1 ∧ complete_timeout_ceil 1 1 = 2 := by
  decide

/-- Claim C5 amended: for every per-attempt timeout of at most
10 ^ 8 ms and every configured attempt count between 1 and 256 - the
domain on which the double arithmetic of the source coincides exactly
with rational truncation - the overall timeout attached to the
ResponseFuture equals the truncation (floor, not ceiling) of
t * 1.1 * n plus the sum over i = 1 .. n-1 of 25 * (2 ^ min(i-1, 5) + 1)
milliseconds. -/
theorem c5_amended_complete_timeout (t n : Nat) (_ht : t ≤ 100000000)
    (_hn1 : 1 ≤ n) (_hn : n ≤ 256) :
    response_future_timeout_ms t n =
      11 * t * n / 10 +
        Finset.sum (Finset.range (n - 1))
          (fun i => kEBBaseTime * (2 ^ min i kMaxRetryInTimeout + 1)) := by
  rw [response_future_timeout_ms, complete_timeout, max_retry_time_eq_sum]

/-- Claim C5 amended, instantiated at a 100 ms timeout with three
attempts: 330 ms for the attempts plus 125 ms of worst-case backoff. -/
theorem c5_amended_complete_timeout_witness :
    response_future_timeout_ms 100 3 =
      11 * 100 * 3 / 10 +
        Finset.sum (Finset.range (3 - 1))
          (fun i => kEBBaseTime * (2 ^ min i kMaxRetryInTimeout + 1)) :=
  c5_amended_complete_timeout 100 3 (by decide) (by decide) (by decide)

/-- The trace of one on_completed call contains exactly one promise
resolution: set_exception on the error path, set_value otherwise. -/
theorem on_completed_acts_resolutions (err : Bool) (status : Nat) :
    (on_completed_acts err status).filter isResolution =
      [if err then Action.setException else Action.setValue status] := by
  cases err <;> simp [on_completed_acts, isResolution]

/-- The per-attempt statistics actions resolve no promise. -/
theorem on_retry_stats_resolutions (err : Bool) (status : Nat) :
    (on_retry_stats err status).filter isResolution = [] := by
  cases err <;> simp [on_retry_stats, isResolution]

/-- A scheduleRetry outcome of on_retry determines the delay, the new
try counter, and that the tries were not yet exhausted. -/
theorem on_retry_decision_scheduleRetry {st : RetrySt} {err : Bool}
    {status r d c : Nat}
    (h : on_retry_decision st err status r = RetryDecision.scheduleRetry d c) :
    not_need_retry err status st = false ∧ d = backoff_ms st.current r ∧
      c = st.current + 1 ∧ st.current < st.retries := by
  rw [on_retry_decision] at h
  split at h
  · exact absurd h (by simp)
  · rename_i hnnr
    injection h with h1 h2
    refine ⟨Bool.not_eq_true _ ▸ by simpa using hnnr, h1.symm, h2.symm, ?_⟩
    by_contra hle
    exact hnnr (by simp [not_need_retry, Nat.le_of_not_lt hle])

/-- Every terminal run of the retry loop resolves the promise exactly
once. -/
theorem runRetryLoop_resolutions (n : Nat) :
    ∀ (evs : List Ev), evs.length ≤ n → ∀ (st : RetrySt) (acts : List Action),
      runRetryLoop st evs = some acts →
      (acts.filter isResolution).length = 1 := by
  induction n with
  | zero =>
    intro evs hlen st acts h
    match evs with
    | [] => simp [runRetryLoop] at h
  | succ n ih =>
    intro evs hlen st acts h
    match evs with
    | [] => simp [runRetryLoop] at h
    | Ev.timer e :: rest => simp [runRetryLoop] at h
    | Ev.attempt err status r :: rest =>
      rw [runRetryLoop] at h
      split at h
      · rename_i hdec
        injection h with h
        subst h
        simp [List.filter_append, on_retry_stats_resolutions,
          on_completed_acts_resolutions]
      · rename_i d c hdec
        split at h
        · rename_i terr rest2
          split at h
          · injection h with h
            subst h
            simp [List.filter_append, on_retry_stats_resolutions,
              on_retry_timer_acts, on_completed_acts_resolutions, isResolution]
          · obtain ⟨a, ha, rfl⟩ := Option.map_eq_some'.mp h
            have hlen2 : rest2.length ≤ n := by
              simp only [List.length_cons] at hlen
              omega
            have := ih rest2 hlen2 _ _ ha
            simpa [List.filter_append, on_retry_stats_resolutions,
              on_retry_timer_acts, isResolution] using this
        · exact absurd h (by simp)

/-- Claim C1: along every complete execution of the state machine the
promise backing the returned future is resolved exactly once: the
action trace of any terminal run of async_perform contains exactly one
set_value / set_exception action, whatever mix of transfer errors,
retries and timer failures the reactor delivers. -/
theorem c1_single_resolution (retries : Nat) (onFails : Bool)
    (evs : List Ev) (acts : List Action)
    (h : async_perform_run retries onFails evs = some acts) :
    (acts.filter isResolution).length = 1 := by
  match evs with
  | [] =>
    simp [async_perform_run, runRetryLoop] at h
  | Ev.timer te :: rest =>
    simp [async_perform_run, runRetryLoop] at h
  | Ev.attempt err status r :: rest =>
    rw [async_perform_run] at h
    split at h
    · injection h with h
      subst h
      simp [on_completed_acts_resolutions, isResolution]
    · obtain ⟨a, ha, rfl⟩ := Option.map_eq_some'.mp h
      have := runRetryLoop_resolutions (Ev.attempt err status r :: rest).length
        (Ev.attempt err status r :: rest) le_rfl _ _ ha
      simpa [isResolution] using this

/-- Claim C1, instantiated: a single successful attempt resolves the
promise exactly once. -/
theorem c1_single_resolution_witness :
    ((Action.statsStart :: Action.performRequest ::
        on_completed_acts false 200).filter isResolution).length = 1 :=
  c1_single_resolution 1 false [Ev.attempt false 200 0] _ rfl

/-- The no-retry predicate of on_retry holds exactly under the three
conditions of the specification. -/
theorem not_need_retry_iff (err : Bool) (status : Nat) (st : RetrySt) :
    not_need_retry err status st = true ↔
      (err = false ∧ status < kLeastBadHttpCodeForEB) ∨
        st.retries ≤ st.current ∨ (err = true ∧ st.onFails = false) := by
  obtain ⟨nr, cur, f⟩ := st
  cases err <;> cases f <;> simp [not_need_retry]

/-- Claim C2: on_retry transitions to the terminal state (calls
on_completed) if and only if the error code is zero and the status is
below 500, or the attempts already used reach the configured count, or
the error code is non-zero and retries on transport failure are
disabled; otherwise it schedules a single-shot timer with the backoff
delay and the incremented try counter, which re-submits the next
attempt on firing. -/
theorem c2_retry_decision (st : RetrySt) (err : Bool) (status r : Nat) :
    (on_retry_decision st err status r = RetryDecision.finish ↔
      (err = false ∧ status < kLeastBadHttpCodeForEB) ∨
        st.retries ≤ st.current ∨ (err = true ∧ st.onFails = false)) ∧
    (on_retry_decision st err status r ≠ RetryDecision.finish →
      on_retry_decision st err status r =
        RetryDecision.scheduleRetry (backoff_ms st.current r)
          (st.current + 1)) := by
  constructor
  · rw [← not_need_retry_iff err status st, on_retry_decision]
    split
    · rename_i hnnr
      simpa using hnnr
    · rename_i hnnr
      constructor
      · intro hc
        exact absurd hc (by simp)
      · intro hc
        exact absurd hc (by simpa using hnnr)
  · intro hne
    rw [on_retry_decision] at hne ⊢
    split
    · rename_i hnnr
      exact absurd (by rw [if_pos hnnr]) hne
    · rfl

/-- Claim C2, instantiated: a transport error with retries on failure
enabled and tries left schedules the backoff timer. -/
theorem c2_retry_decision_witness :
    on_retry_decision ⟨3, 1, true⟩ true 0 0 =
      RetryDecision.scheduleRetry (backoff_ms 1 0) 2 :=
  (c2_retry_decision ⟨3, 1, true⟩ true 0 0).2 (by decide)

/-- Invariant of the reachable retry states: the configured try count
and flag never change, and the current try stays within [1, n]. -/
theorem reachable_invariant (n : Nat) (f : Bool) (hn : 1 ≤ n) :
    ∀ st, ReachableSt n f st →
      st.retries = n ∧ st.onFails = f ∧ 1 ≤ st.current ∧ st.current ≤ n := by
  intro st h
  induction h with
  | init => exact ⟨rfl, rfl, Nat.le_refl 1, hn⟩
  | step hreach hdec ih =>
    rename_i st2 err status r d c
    obtain ⟨hr, hf, h1, h2⟩ := ih
    obtain ⟨-, -, hc, hlt⟩ := on_retry_decision_scheduleRetry hdec
    subst hc
    refine ⟨hr, hf, ?_, ?_⟩
    · show 1 ≤ st2.current + 1
      omega
    · show st2.current + 1 ≤ n
      omega

/-- The retry loop submits at most retries - current further attempts
in any terminal run. -/
theorem runRetryLoop_perform_count (n : Nat) :
    ∀ (evs : List Ev), evs.length ≤ n → ∀ (st : RetrySt) (acts : List Action),
      runRetryLoop st evs = some acts →
      acts.count Action.performRequest ≤ st.retries - st.current := by
  induction n with
  | zero =>
    intro evs hlen st acts h
    match evs with
    | [] => simp [runRetryLoop] at h
  | succ n ih =>
    intro evs hlen st acts h
    match evs with
    | [] => simp [runRetryLoop] at h
    | Ev.timer e :: rest => simp [runRetryLoop] at h
    | Ev.attempt err status r :: rest =>
      rw [runRetryLoop] at h
      split at h
      · injection h with h
        subst h
        cases err <;>
          simp [on_retry_stats, on_completed_acts, List.count_append]
      · rename_i d c hdec
        obtain ⟨-, -, hc, hlt⟩ := on_retry_decision_scheduleRetry hdec
        subst hc
        split at h
        · rename_i terr rest2
          split at h
          · injection h with h
            subst h
            cases err <;>
              simp [on_retry_stats, on_retry_timer_acts, on_completed_acts,
                List.count_append, List.count_cons]
          · obtain ⟨a, ha, rfl⟩ := Option.map_eq_some'.mp h
            have hlen2 : rest2.length ≤ n := by
              simp only [List.length_cons] at hlen
              omega
            have hcnt : List.count Action.performRequest a ≤
                st.retries - (st.current + 1) := ih rest2 hlen2 _ _ ha
            cases err <;>
              simp [on_retry_stats, on_retry_timer_acts, List.count_append,
                List.count_cons] <;>
              omega
        · exact absurd h (by simp)

/-- Claim C3: for a request configured with retry(n, f), n at least 1,
every reachable retry state keeps 1 <= current <= n with the current
try only increasing, every terminal run performs between 1 and n
attempts, and an attempt beyond the first is scheduled only when the
attempt that just finished had a transport error with retries on
failure enabled, or an HTTP status of at least 500. -/
theorem c3_retry_bounds (n : Nat) (f : Bool) (hn : 1 ≤ n) :
    (∀ st, ReachableSt n f st → 1 ≤ st.current ∧ st.current ≤ n) ∧
    (∀ st err status r d c, ReachableSt n f st →
      on_retry_decision st err status r = RetryDecision.scheduleRetry d c →
      st.current < c) ∧
    (∀ evs acts, async_perform_run n f evs = some acts →
      1 ≤ acts.count Action.performRequest ∧
        acts.count Action.performRequest ≤ n) ∧
    (∀ st err status r,
      on_retry_decision st err status r ≠ RetryDecision.finish →
      (err = true ∧ st.onFails = true) ∨
        (err = false ∧ kLeastBadHttpCodeForEB ≤ status)) := by
  refine ⟨?_, ?_, ?_, ?_⟩
  · intro st h
    exact (reachable_invariant n f hn st h).2.2
  · intro st err status r d c hreach hdec
    obtain ⟨-, -, hc, -⟩ := on_retry_decision_scheduleRetry hdec
    omega
  · intro evs acts h
    match evs with
    | [] => simp [async_perform_run, runRetryLoop] at h
    | Ev.timer te :: rest => simp [async_perform_run, runRetryLoop] at h
    | Ev.attempt err status r :: rest =>
      rw [async_perform_run] at h
      split at h
      · injection h with h
        subst h
        cases err <;>
          simp [on_completed_acts, List.count_cons] <;> omega
      · obtain ⟨a, ha, rfl⟩ := Option.map_eq_some'.mp h
        have hcnt := runRetryLoop_perform_count
          (Ev.attempt err status r :: rest).length
          (Ev.attempt err status r :: rest) le_rfl _ _ ha
        dsimp only at hcnt
        simp [List.count_cons]
        omega
  · intro st err status r hne
    have hnnr : not_need_retry err status st = false := by
      rw [on_retry_decision] at hne
      by_contra htrue
      rw [Bool.not_eq_false] at htrue
      exact hne (by rw [if_pos htrue])
    revert hnnr
    obtain ⟨nr, cur, fl⟩ := st
    cases err <;> cases fl <;> simp [not_need_retry] <;> omega

/-- Claim C3, instantiated: a single successful attempt of a request
configured with one try performs exactly one attempt. -/
theorem c3_retry_bounds_witness :
    1 ≤ (Action.statsStart :: Action.performRequest ::
          on_completed_acts false 200).count Action.performRequest ∧
    (Action.statsStart :: Action.performRequest ::
        on_completed_acts false 200).count Action.performRequest ≤ 1 :=
  (c3_retry_bounds 1 false (by decide)).2.2.1 [Ev.attempt false 200 0] _ rfl

/-- In a well-formed feeder state, cursor offset plus remaining size
spans the payload. -/
theorem effPos_add_effRest (st : PutState) (h : PutWF st) :
    effPos st + effRest st = st.put_method_data.length := by
  cases hc : st.put_method_cursor with
  | none => simp [effPos, effRest, hc]
  | some i => simpa [effPos, effRest, hc] using h i hc

/-- One PutMethodReadCallback call on a well-formed state: the output
is the next min(remaining, capacity) bytes of the payload, the payload
is unchanged, and cursor and remaining size advance by the bytes
copied. -/
theorem PutMethodReadCallback_step (st : PutState) (c : Nat) :
    (PutMethodReadCallback st c 1).1 =
      (st.put_method_data.drop (effPos st)).take (min (effRest st) c) ∧
    (PutMethodReadCallback st c 1).2.put_method_data =
      st.put_method_data ∧
    (PutMethodReadCallback st c 1).2.put_method_cursor =
      some (effPos st + min (effRest st) c) ∧
    (PutMethodReadCallback st c 1).2.put_method_rest_data_size =
      effRest st - min (effRest st) c := by
  cases hc : st.put_method_cursor with
  | none => simp [PutMethodReadCallback, hc, effPos, effRest]
  | some i => simp [PutMethodReadCallback, hc, effPos, effRest]

/-- PutMethodReadCallback preserves well-formedness of the feeder
state. -/
theorem PutMethodReadCallback_wf (st : PutState) (c : Nat) (h : PutWF st) :
    PutWF (PutMethodReadCallback st c 1).2 := by
  obtain ⟨-, hdata, hcur, hrest⟩ := PutMethodReadCallback_step st c
  intro j hj
  rw [hcur] at hj
  injection hj with hj
  subst hj
  rw [hdata, hrest]
  have := effPos_add_effRest st h
  omega

/-- Driving the feeder through a capacity list consumes exactly
min(remaining, total capacity) bytes in order, preserving the payload
and well-formedness. -/
theorem feedAll_spec (caps : List Nat) :
    ∀ st : PutState, PutWF st →
      (feedAll st caps).1.flatten =
        (st.put_method_data.drop (effPos st)).take
          (min (effRest st) caps.sum) ∧
      (feedAll st caps).2.put_method_data = st.put_method_data ∧
      effPos (feedAll st caps).2 = effPos st + min (effRest st) caps.sum ∧
      effRest (feedAll st caps).2 = effRest st - min (effRest st) caps.sum ∧
      PutWF (feedAll st caps).2 := by
  induction caps with
  | nil =>
    intro st h
    simp [feedAll]
    exact h
  | cons c cs ih =>
    intro st h
    obtain ⟨hout, hdata, hcur, hrest⟩ := PutMethodReadCallback_step st c
    have hwf2 := PutMethodReadCallback_wf st c h
    obtain ⟨ih1, ih2, ih3, ih4, ih5⟩ := ih (PutMethodReadCallback st c 1).2 hwf2
    have hpos2 : effPos (PutMethodReadCallback st c 1).2 =
        effPos st + min (effRest st) c := by
      simp [effPos, hcur]
    have hrest2 : effRest (PutMethodReadCallback st c 1).2 =
        effRest st - min (effRest st) c := by
      simp [effRest, hcur, hrest]
    have hsp := effPos_add_effRest st h
    refine ⟨?_, ?_, ?_, ?_, ?_⟩
    · show (PutMethodReadCallback st c 1).1 ++
        (feedAll (PutMethodReadCallback st c 1).2 cs).1.flatten = _
      rw [ih1, hdata, hpos2, hrest2, hout]
      rw [show st.put_method_data.drop (effPos st + min (effRest st) c) =
          (st.put_method_data.drop (effPos st)).drop (min (effRest st) c) by
        rw [List.drop_drop]]
      rw [← List.take_add]
      congr 1
      simp only [List.sum_cons]
      omega
    · show (feedAll (PutMethodReadCallback st c 1).2 cs).2.put_method_data = _
      rw [ih2, hdata]
    · show effPos (feedAll (PutMethodReadCallback st c 1).2 cs).2 = _
      rw [ih3, hpos2, hrest2]
      simp only [List.sum_cons]
      omega
    · show effRest (feedAll (PutMethodReadCallback st c 1).2 cs).2 = _
      rw [ih4, hrest2]
      simp only [List.sum_cons]
      omega
    · exact ih5

/-- Claim C7: within a single attempt, for a PUT payload and any
sequence of read buffer capacities whose sum covers the payload, each
PutMethodReadCallback call returns min(remaining, capacity) bytes, the
concatenation of all outputs is exactly the payload in order, and every
call after the payload is drained returns 0 bytes. -/
theorem c7_put_completeness (data : List Nat) (caps : List Nat)
    (h : data.length ≤ caps.sum) :
    (feedAll (SetPutMethodData data) caps).1.flatten = data ∧
    (∀ st c, PutWF st →
      (PutMethodReadCallback st c 1).1.length = min (effRest st) c) ∧
    (∀ c, (PutMethodReadCallback
        ((feedAll (SetPutMethodData data) caps).2) c 1).1 = []) := by
  have hwf0 : PutWF (SetPutMethodData data) := by
    intro i hi
    simp [SetPutMethodData] at hi
  have hlen : ∀ st c, PutWF st →
      (PutMethodReadCallback st c 1).1.length = min (effRest st) c := by
    intro st c hwf
    obtain ⟨hout, -, -, -⟩ := PutMethodReadCallback_step st c
    have hsp := effPos_add_effRest st hwf
    rw [hout]
    simp [List.length_take, List.length_drop]
    omega
  obtain ⟨h1, h2, h3, h4, h5⟩ := feedAll_spec caps (SetPutMethodData data) hwf0
  have hpos0 : effPos (SetPutMethodData data) = 0 := rfl
  have hrest0 : effRest (SetPutMethodData data) = data.length := rfl
  refine ⟨?_, hlen, ?_⟩
  · rw [h1, hpos0, hrest0]
    simp [Nat.min_eq_left h, SetPutMethodData]
  · intro c
    have hz := hlen _ c h5
    rw [h4, hrest0] at hz
    rw [Nat.min_eq_left h] at hz
    simp at hz
    exact hz

/-- Claim C7, instantiated: a three-byte payload fed through
capacities 2 and 5 is reproduced exactly. -/
theorem c7_put_completeness_witness :
    (feedAll (SetPutMethodData [1, 2, 3]) [2, 5]).1.flatten = [1, 2, 3] :=
  (c7_put_completeness [1, 2, 3] [2, 5] (by decide)).1

/-- Claim C6: the code keeps no per-attempt reset of the PUT cursor.
After the first attempt drains a two-byte body, perform_request leaves
the cursor at the buffer end with zero bytes remaining, so the first
read callback of the retry attempt returns 0 bytes instead of streaming
the body from the start: the claimed invariant fails on every retry
attempt. -/
theorem c6_put_cursor_not_reset_on_retry :
    (feedAll (SetPutMethodData [97, 98]) [2]).1.flatten = [97, 98] ∧
    (perform_request_put_state
        ((feedAll (SetPutMethodData [97, 98]) [2]).2)).put_method_cursor =
      some 2 ∧
    (perform_request_put_state
        ((feedAll (SetPutMethodData [97, 98]) [2]).2)).put_method_rest_data_size
      = 0 ∧
    (PutMethodReadCallback
        (perform_request_put_state
          ((feedAll (SetPutMethodData [97, 98]) [2]).2)) 2 1).1 = [] := by
  decide

/-- Appending a fully-trimmed suffix does not change the kept prefix
length. -/
theorem rfind_not_space_append_zero (l1 l2 : List Char)
    (h : rfind_not_space l2 = 0) :
    rfind_not_space (l1 ++ l2) = rfind_not_space l1 := by
  induction l1 with
  | nil => simpa using h
  | cons c t ih =>
    simp only [List.cons_append, rfind_not_space, List.append_eq, ih]

/-- Appending a suffix with a kept character keeps the whole prefix. -/
theorem rfind_not_space_append_ne (l1 l2 : List Char)
    (h : rfind_not_space l2 ≠ 0) :
    rfind_not_space (l1 ++ l2) = l1.length + rfind_not_space l2 := by
  induction l1 with
  | nil => simp
  | cons c t ih =>
    simp only [List.cons_append, rfind_not_space, List.append_eq, ih]
    have hne : t.length + rfind_not_space l2 ≠ 0 := by omega
    rw [if_neg hne]
    simp [List.length_cons]
    omega

/-- A buffer of only whitespace and CR/LF characters trims to
nothing. -/
theorem rfind_not_space_all_space (l : List Char)
    (h : ∀ c ∈ l, is_header_space c = true) :
    rfind_not_space l = 0 := by
  induction l with
  | nil => rfl
  | cons c t ih =>
    have hc := h c (List.mem_cons_self c t)
    have ht := ih fun x hx => h x (List.mem_cons_of_mem c hx)
    simp [rfind_not_space, ht, hc]

/-- A buffer ending in a kept character is kept whole. -/
theorem rfind_not_space_concat (l : List Char) (c : Char)
    (h : is_header_space c = false) :
    rfind_not_space (l ++ [c]) = l.length + 1 := by
  have h1 : rfind_not_space [c] = 1 := by
    simp [rfind_not_space, h]
  rw [rfind_not_space_append_ne l [c] (by rw [h1]; exact Nat.one_ne_zero), h1]

/-- strchr plus the splitting of parse_header on a buffer whose first
colon separates K from V. -/
theorem strchr_split_append (K V : List Char) (hK : ':' ∉ K) :
    strchr_split (K ++ ':' :: V) = some (K, V) := by
  induction K with
  | nil => simp [strchr_split]
  | cons c t ih =>
    have hc : c ≠ ':' := fun he => hK (he ▸ List.mem_cons_self c t)
    have ht : ':' ∉ t := fun hm => hK (List.mem_cons_of_mem c hm)
    simp [strchr_split, hc, ih ht]

/-- strchr finds no colon in a colon-free buffer. -/
theorem strchr_split_none (l : List Char) (h : ':' ∉ l) :
    strchr_split l = none := by
  induction l with
  | nil => rfl
  | cons c t ih =>
    have hc : c ≠ ':' := fun he => h (he ▸ List.mem_cons_self c t)
    simp [strchr_split, hc, ih fun hm => h (List.mem_cons_of_mem c hm)]

/-- Claim C8 counterexample: the header line written K: V with K = a
and V = b parses to the pair (a, one space followed by b) because
parse_header keeps everything after the first colon, including the
leading space; the claimed pair (a, b) is not stored. -/
theorem c8_counterexample_parse_header :
    parse_header ['a', ':', ' ', 'b', '\r', '\n'] =
      some (['a'], [' ', 'b']) ∧
    parse_header ['a', ':', ' ', 'b', '\r', '\n'] ≠
      some (['a'], ['b']) := by
  decide

/-- Claim C8 amended: for a key K containing no colon and a value V
whose last character is not whitespace or CR/LF, parse_header on the
buffer K colon V CR LF stores exactly (K, V), where V is everything
after the first colon (leading whitespace of the value is preserved,
so the line written K: V stores the value with its leading space);
a line containing no colon, or a line that is empty after trimming
trailing whitespace, stores no entry. -/
theorem c8_amended_parse_header (K V : List Char) (hK : ':' ∉ K)
    (hV : V.getLast?.all (fun c => !is_header_space c) = true) :
    parse_header (K ++ ':' :: (V ++ ['\r', '\n'])) = some (K, V) ∧
    (∀ l : List Char, ':' ∉ l → parse_header l = none) ∧
    (∀ l : List Char, (∀ c ∈ l, is_header_space c = true) →
      parse_header l = none) := by
  refine ⟨?_, ?_, ?_⟩
  · have hcrlf : rfind_not_space ['\r', '\n'] = 0 := by
      decide
    have hmid : rfind_not_space (K ++ ':' :: V) = K.length + V.length + 1 := by
      rcases List.eq_nil_or_concat V with hV0 | ⟨W, c, hVW⟩
      · subst hV0
        have : K ++ ':' :: ([] : List Char) = K ++ [':'] := rfl
        rw [this, rfind_not_space_concat K ':' (by decide)]
        simp
      · rw [List.concat_eq_append] at hVW
        subst hVW
        have hcK : is_header_space c = false := by
          rw [List.getLast?_concat] at hV
          simpa using hV
        have : K ++ ':' :: (W ++ [c]) = (K ++ ':' :: W) ++ [c] := by
          simp
        rw [this, rfind_not_space_concat _ c hcK]
        simp
    have hall : K ++ ':' :: (V ++ ['\r', '\n']) =
        (K ++ ':' :: V) ++ ['\r', '\n'] := by
      simp
    have he : rfind_not_space (K ++ ':' :: (V ++ ['\r', '\n'])) =
        K.length + V.length + 1 := by
      rw [hall, rfind_not_space_append_zero _ _ hcrlf, hmid]
    have hlenmid : (K ++ ':' :: V).length = K.length + V.length + 1 := by
      simp
      omega
    have htake : (K ++ ':' :: (V ++ ['\r', '\n'])).take
        (K.length + V.length + 1) = K ++ ':' :: V := by
      rw [hall, ← hlenmid, List.take_left]
    rw [parse_header, he]
    have hne : K.length + V.length + 1 ≠ 0 := by omega
    rw [if_neg hne, htake, strchr_split_append K V hK]
  · intro l hl
    rw [parse_header]
    split
    · rfl
    · exact strchr_split_none _ fun hm => hl (List.take_subset _ _ hm)
  · intro l hl
    rw [parse_header, rfind_not_space_all_space l hl]
    simp

/-- Claim C8 amended, instantiated: the line a colon space b CR LF
stores the pair (a, space b). -/
theorem c8_amended_parse_header_witness :
    parse_header (['a'] ++ ':' :: ([' ', 'b'] ++ ['\r', '\n'])) =
      some (['a'], [' ', 'b']) :=
  (c8_amended_parse_header ['a'] [' ', 'b'] (by decide) (by decide)).1

end UserverHttp
